import Mathlib

/-!
Verification of the schema/data migration runner of the `infinityagents`
repository (registry, ledger, lock manager, runner, status reporter) and of
its CLI entry point (`main` in `scripts/migrate.js`, concatenated into
`src/scripts/setup-resend-email.js`).

The CLI entry point is embedded directly from the source.  The runner module
(`src/lib/migrations/index.ts`) is required by the CLI but is not among the
source files, so its operations are modelled from the specification
(spec.md sections 3, 4 and 5), with migration versions rendered as natural
numbers (the spec only requires a monotonically comparable unique
identifier) and timestamps as natural numbers.  The domain-specific bodies
of the migrations (`up`/`down`, out of scope for the design) are modelled by
an environment telling, per version, whether the body succeeds.
-/

namespace MigrationRunner

/-- Modelled from the spec: `MigrationDefinition` (spec section 3) — version
(unique, monotonically comparable, here a natural number), human readable
description, an `up` operation and an optional `down` operation.  The bodies
of `up`/`down` live in the environment `Env` below; the definition itself
records only whether a `down` is present (`hasDown = false` marks the
migration irreversible). -/
structure MigrationDefinition where
  version : Nat
  description : String
  hasDown : Bool
deriving Repr, DecidableEq

/-- Modelled from the spec: `AppliedRecord` persisted in the Ledger
(spec section 3): version, description snapshot and the apply timestamp. -/
structure AppliedRecord where
  version : Nat
  description : String
  appliedAt : Nat
deriving Repr, DecidableEq

/-- Modelled from the spec: the singleton `LockRecord` (spec section 3). -/
structure LockRecord where
  holder : String
  acquiredAt : Nat
  leaseExpiresAt : Nat
deriving Repr, DecidableEq

/-- Modelled from the spec: the out-of-scope migration bodies.  `upOk v`
(resp. `downOk v`) tells whether executing `up` (resp. `down`) of the
migration with version `v` succeeds against the external data store. -/
structure Env where
  upOk : Nat → Bool
  downOk : Nat → Bool

/-- The persistent state the runner acts on: the Ledger (one collection
keyed by version) and the singleton lock record (spec section 6). -/
structure RunnerState where
  ledger : List AppliedRecord
  lock : Option LockRecord
deriving Repr, DecidableEq

/-! ### Lock manager (spec section 4.3) -/

/-- Modelled from the spec: lock acquisition is a single conditional write;
it succeeds (returning the freshly written record) only if no `LockRecord`
exists or the existing one's `leaseExpiresAt` is in the past (stale-lease
takeover); otherwise it fails (`LockHeld`), leaving the store unchanged. -/
def tryAcquire (store : Option LockRecord) (holder : String)
    (now leaseDuration : Nat) : Option LockRecord :=
  match store with
  | none => some ⟨holder, now, now + leaseDuration⟩
  | some r =>
      if r.leaseExpiresAt < now then some ⟨holder, now, now + leaseDuration⟩
      else none

/-- Modelled from the spec: `release()` deletes the record only if `holder`
still matches the caller's id (spec section 4.3). -/
def releaseLock (store : Option LockRecord) (holder : String) :
    Option LockRecord :=
  match store with
  | none => none
  | some r => if r.holder = holder then none else some r

/-- Modelled from the spec: `heartbeat()` extends `leaseExpiresAt` of the
caller's own lock record (spec section 4.3). -/
def heartbeat (store : Option LockRecord) (holder : String)
    (newExpiry : Nat) : Option LockRecord :=
  match store with
  | none => none
  | some r =>
      if r.holder = holder then some ⟨r.holder, r.acquiredAt, newExpiry⟩
      else some r

/-- States of the lock store reachable from the initial empty store by
acquisitions (successful conditional writes), releases and heartbeats. -/
inductive LockReach : Option LockRecord → Prop where
  | init : LockReach none
  | acq {s : Option LockRecord} (holder : String) (now leaseDuration : Nat)
      {r : LockRecord} (hstep : tryAcquire s holder now leaseDuration = some r) :
      LockReach s → LockReach (some r)
  | rel {s : Option LockRecord} (holder : String) :
      LockReach s → LockReach (releaseLock s holder)
  | hb {s : Option LockRecord} (holder : String) (newExpiry : Nat) :
      LockReach s → LockReach (heartbeat s holder newExpiry)

/-- Number of lock records in the store that are unexpired at time `now`. -/
def unexpiredCount (now : Nat) (store : Option LockRecord) : Nat :=
  match store with
  | none => 0
  | some r => if now ≤ r.leaseExpiresAt then 1 else 0

/-! ### Ledger store (spec section 4.2) -/

/-- The versions present in a ledger. -/
def ledgerVersions (ledger : List AppliedRecord) : List Nat :=
  ledger.map AppliedRecord.version

/-- Modelled from the spec: `recordApplied` fails with `WriteConflict`
(returns `none`) if a record for that version already exists, otherwise
appends the new record (spec section 4.2). -/
def recordApplied (ledger : List AppliedRecord) (version : Nat)
    (description : String) (appliedAt : Nat) : Option (List AppliedRecord) :=
  if ledger.any (fun r => r.version == version) then none
  else some (ledger ++ [⟨version, description, appliedAt⟩])

/-- Modelled from the spec: `removeApplied` deletes the record for the given
version (spec section 4.2).  At most the entries carrying that version are
removed. -/
def removeApplied (ledger : List AppliedRecord) (version : Nat) :
    List AppliedRecord :=
  ledger.filter (fun r => decide (r.version ≠ version))

/-! ### Registry ordering and the pending set (spec sections 4.1, 4.4) -/

/-- Ordering of migration definitions by version. -/
def versionLE (a b : MigrationDefinition) : Prop := a.version ≤ b.version

instance : DecidableRel versionLE := fun a b => Nat.decLe a.version b.version

instance : IsTotal MigrationDefinition versionLE :=
  ⟨fun a b => Nat.le_total a.version b.version⟩

instance : IsTrans MigrationDefinition versionLE :=
  ⟨fun _ _ _ h h2 => Nat.le_trans h h2⟩

/-- Modelled from the spec: the Runner sorts the Registry ascending by
version before use — declaration order is not trusted (spec section 3). -/
def sortedRegistry (registry : List MigrationDefinition) :
    List MigrationDefinition :=
  registry.insertionSort versionLE

/-- Modelled from the spec: `pending = sorted(Registry) − appliedVersions`,
preserving ascending order (spec section 4.4, run step 2). -/
def pendingDefs (registry : List MigrationDefinition)
    (ledger : List AppliedRecord) : List MigrationDefinition :=
  (sortedRegistry registry).filter
    (fun d => decide (d.version ∉ ledgerVersions ledger))

/-- The versions of the pending migrations, in execution order. -/
def pendingVersions (registry : List MigrationDefinition)
    (ledger : List AppliedRecord) : List Nat :=
  (pendingDefs registry ledger).map MigrationDefinition.version

/-! ### Migration runner (spec section 4.4) -/

/-- Result of `runMigrations` (spec sections 4.4 and 7). -/
inductive RunResult where
  | ok (applied : List Nat)
  | migrationFailed (version : Nat) (applied : List Nat)
  | lockContention
deriving Repr, DecidableEq

/-- Outcome of one `runMigrations` invocation: the final persistent state,
the versions whose `up` body was executed (in invocation order), and the
surfaced result. -/
structure RunOutcome where
  state : RunnerState
  exec : List Nat
  result : RunResult
deriving Repr, DecidableEq

/-- Intermediate outcome of the apply loop. -/
structure ApplyOutcome where
  ledger : List AppliedRecord
  applied : List Nat
  exec : List Nat
  failed : Option Nat
deriving Repr, DecidableEq

/-- Modelled from the spec: run step 3 — for each pending definition in
order execute `up`; on success `recordApplied`; on failure stop immediately,
not attempting subsequent pending migrations and not marking the failed one
applied (spec section 4.4).  A `WriteConflict` from `recordApplied` likewise
stops the batch at that version. -/
def applyPending (env : Env) (now : Nat) :
    List MigrationDefinition → List AppliedRecord → ApplyOutcome
  | [], ledger => ⟨ledger, [], [], none⟩
  | d :: rest, ledger =>
      if env.upOk d.version then
        match recordApplied ledger d.version d.description now with
        | some ledgerNext =>
            let o := applyPending env now rest ledgerNext
            ⟨o.ledger, d.version :: o.applied, d.version :: o.exec, o.failed⟩
        | none => ⟨ledger, [], [d.version], some d.version⟩
      else ⟨ledger, [], [d.version], some d.version⟩

/-- Modelled from the spec: `run()` — acquire the lock (failing fast with
`LockContention`), compute the pending set, apply it in order, release the
lock on every path, and return the applied versions or a
`MigrationFailed{version, applied-so-far}` result (spec section 4.4). -/
def runMigrations (registry : List MigrationDefinition) (env : Env)
    (holder : String) (now leaseDuration : Nat) (s : RunnerState) :
    RunOutcome :=
  match tryAcquire s.lock holder now leaseDuration with
  | none => ⟨s, [], RunResult.lockContention⟩
  | some lk =>
      let o := applyPending env now (pendingDefs registry s.ledger) s.ledger
      let sFinal : RunnerState := ⟨o.ledger, releaseLock (some lk) holder⟩
      match o.failed with
      | none => ⟨sFinal, o.exec, RunResult.ok o.applied⟩
      | some v => ⟨sFinal, o.exec, RunResult.migrationFailed v o.applied⟩

/-! ### Rollback (spec section 4.4) -/

/-- Result of `rollbackLastMigration` (spec sections 4.4 and 7). -/
inductive RollbackResult where
  | ok (version : Nat)
  | nothingToRollback
  | orphanMigration (version : Nat)
  | irreversible (version : Nat)
  | rollbackFailed (version : Nat)
  | lockContention
deriving Repr, DecidableEq

/-- Outcome of one `rollbackLastMigration` invocation. -/
structure RollbackOutcome where
  state : RunnerState
  result : RollbackResult
deriving Repr, DecidableEq

/-- The Ledger entry with the maximum version (version order is
authoritative, spec section 4.4 rollback step 3); `none` on an empty
ledger. -/
def maxLedgerEntry : List AppliedRecord → Option AppliedRecord
  | [] => none
  | r :: rest =>
      match maxLedgerEntry rest with
      | none => some r
      | some m => if m.version < r.version then some r else some m

/-- Look up a version in the Registry. -/
def findDef (registry : List MigrationDefinition) (version : Nat) :
    Option MigrationDefinition :=
  registry.find? (fun d => d.version == version)

/-- Modelled from the spec: `rollbackLastMigration()` — acquire the lock;
fail with `NothingToRollback` on an empty ledger; locate the maximum-version
entry; fail with `OrphanMigration` if it has no Registry definition and with
`Irreversible` if its `down` is undefined; otherwise execute `down`, on
success `removeApplied(version)`, on failure leave the entry intact and
surface `RollbackFailed`; release the lock (spec section 4.4). -/
def rollbackLastMigration (registry : List MigrationDefinition) (env : Env)
    (holder : String) (now leaseDuration : Nat) (s : RunnerState) :
    RollbackOutcome :=
  match tryAcquire s.lock holder now leaseDuration with
  | none => ⟨s, RollbackResult.lockContention⟩
  | some lk =>
      let lockFinal := releaseLock (some lk) holder
      match maxLedgerEntry s.ledger with
      | none => ⟨⟨s.ledger, lockFinal⟩, RollbackResult.nothingToRollback⟩
      | some r =>
          match findDef registry r.version with
          | none => ⟨⟨s.ledger, lockFinal⟩, RollbackResult.orphanMigration r.version⟩
          | some d =>
              if d.hasDown then
                if env.downOk r.version then
                  ⟨⟨removeApplied s.ledger r.version, lockFinal⟩,
                    RollbackResult.ok r.version⟩
                else ⟨⟨s.ledger, lockFinal⟩, RollbackResult.rollbackFailed r.version⟩
              else ⟨⟨s.ledger, lockFinal⟩, RollbackResult.irreversible r.version⟩

/-! ### Status (spec section 4.4) -/

/-- One per-Registry-entry status line datum (spec section 4.4). -/
structure StatusEntry where
  version : Nat
  description : String
  applied : Bool
  appliedAt : Option Nat
deriving Repr, DecidableEq

/-- The status view: one entry per Registry definition plus the separate
orphaned list (spec section 4.4). -/
structure StatusResult where
  entries : List StatusEntry
  orphaned : List AppliedRecord
deriving Repr, DecidableEq

/-- Modelled from the spec: merge the sorted Registry with the Ledger; for
each Registry entry emit `{version, description, applied, appliedAt}`;
additionally surface Ledger entries with no matching Registry definition as
a separate orphaned list rather than silently dropping them
(spec section 4.4). -/
def statusReport (registry : List MigrationDefinition)
    (ledger : List AppliedRecord) : StatusResult :=
  let entries := (sortedRegistry registry).map (fun d =>
    match ledger.find? (fun r => r.version == d.version) with
    | some r => ⟨d.version, d.description, true, some r.appliedAt⟩
    | none => ⟨d.version, d.description, false, none⟩)
  let orphaned := ledger.filter
    (fun r => decide (findDef registry r.version = none))
  ⟨entries, orphaned⟩

/-- Modelled from the spec: `getMigrationStatus()` is read-only and
lock-free (spec sections 4.4 and 5): it is a pure read of the persistent
state, returned unchanged alongside the status view. -/
def getMigrationStatus (registry : List MigrationDefinition)
    (s : RunnerState) : RunnerState × StatusResult :=
  (s, statusReport registry s.ledger)

end MigrationRunner

namespace MigrateCli

open MigrationRunner

/-- The usage text printed by the CLI's default branch
(`src/scripts/setup-resend-email.js`, lines 260-263). -/
def usageLines : List String :=
  ["Usage:",
   "  node scripts/migrate.js up     - Run pending migrations",
   "  node scripts/migrate.js down   - Rollback last migration",
   "  node scripts/migrate.js status - Show migration status"]

/-- The header printed before the status lines
(`src/scripts/setup-resend-email.js`, lines 250-251). -/
def statusHeader : List String :=
  ["", "Migration Status:", "================"]

/-- One status line, as printed by the CLI's `forEach`
(`src/scripts/setup-resend-email.js`, lines 252-256): the `✓`/`○` marker,
the version, the description and, when present, the applied timestamp in
parentheses (timestamp rendering abstracts `toISOString`). -/
def renderLine (e : StatusEntry) : String :=
  (if e.applied then "✓" else "○") ++ " " ++ toString e.version ++ ": " ++
    e.description ++
    (match e.appliedAt with
     | some t => " (" ++ toString t ++ ")"
     | none => "")

/-- A line reporting one applied version.  Modelled from the spec: `migrate
up` prints each applied version (spec section 6); the printing lives inside
the runner module, which is not among the source files. -/
def appliedLine (v : Nat) : String :=
  "Applied migration " ++ toString v

/-- The error line printed by the CLI's catch-all
(`src/scripts/setup-resend-email.js`, line 269). -/
def migrationErrorLine (msg : String) : String :=
  "Migration error: " ++ msg

/-- Abstract message carried by a failed `runMigrations`. -/
def runFailureMessage : RunResult → String
  | RunResult.ok _ => ""
  | RunResult.migrationFailed v _ => "Migration " ++ toString v ++ " failed"
  | RunResult.lockContention => "Migration lock is held"

/-- Abstract message carried by a failed `rollbackLastMigration`. -/
def rollbackFailureMessage : RollbackResult → String
  | RollbackResult.ok _ => ""
  | RollbackResult.nothingToRollback => "Nothing to rollback"
  | RollbackResult.orphanMigration v =>
      "Migration " ++ toString v ++ " has no registry definition"
  | RollbackResult.irreversible v =>
      "Migration " ++ toString v ++ " is irreversible"
  | RollbackResult.rollbackFailed v =>
      "Rollback of migration " ++ toString v ++ " failed"
  | RollbackResult.lockContention => "Migration lock is held"

/-- Whether a `runMigrations` result is a failure (surfaced to the CLI as a
rejected promise caught by its catch-all). -/
def runFailed : RunResult → Bool
  | RunResult.ok _ => false
  | _ => true

/-- Whether a `rollbackLastMigration` result is a failure. -/
def rollbackFailed : RollbackResult → Bool
  | RollbackResult.ok _ => false
  | _ => true

/-- Outcome of one CLI invocation: final persistent state, process exit
code, printed lines. -/
structure CliOutcome where
  state : RunnerState
  exitCode : Nat
  output : List String
deriving Repr, DecidableEq

/-- The migration CLI `main` (`src/scripts/setup-resend-email.js`, lines
235-274): switch on `process.argv[2]`; `up` runs `runMigrations`, `down`
runs `rollbackLastMigration`, `status` prints the header plus one line per
status entry and exits 0; the default branch prints usage and exits 1; a
thrown runner error is caught, printed as `Migration error: ...` and the
process exits 1; otherwise the process exits 0.  Runner failures surface to
the CLI as thrown errors (per spec sections 6 and 7 all failures reach the
CLI caller). -/
def cliMain (cmd : Option String) (registry : List MigrationDefinition)
    (env : Env) (holder : String) (now leaseDuration : Nat)
    (s : RunnerState) : CliOutcome :=
  match cmd with
  | none => ⟨s, 1, usageLines⟩
  | some c =>
      if c = "up" then
        let o := runMigrations registry env holder now leaseDuration s
        match o.result with
        | RunResult.ok vs => ⟨o.state, 0, vs.map appliedLine⟩
        | r =>
            ⟨o.state, 1,
              (match r with
               | RunResult.migrationFailed _ applied => applied.map appliedLine
               | _ => []) ++ [migrationErrorLine (runFailureMessage r)]⟩
      else if c = "down" then
        let o := rollbackLastMigration registry env holder now leaseDuration s
        match o.result with
        | RollbackResult.ok v =>
            ⟨o.state, 0, ["Rolled back migration " ++ toString v]⟩
        | r => ⟨o.state, 1, [migrationErrorLine (rollbackFailureMessage r)]⟩
      else if c = "status" then
        ⟨s, 0,
          statusHeader ++
            (statusReport registry s.ledger).entries.map renderLine⟩
      else ⟨s, 1, usageLines⟩

end MigrateCli

namespace MigrationRunner

/-! ### Helper lemmas: registry ordering and the pending set -/

theorem sortedRegistry_perm (registry : List MigrationDefinition) :
    List.Perm (sortedRegistry registry) registry :=
  List.perm_insertionSort versionLE registry

theorem sortedRegistry_sorted (registry : List MigrationDefinition) :
    List.Sorted versionLE (sortedRegistry registry) :=
  List.sorted_insertionSort versionLE registry

/-- The versions of the sorted registry. -/
def sortedVersions (registry : List MigrationDefinition) : List Nat :=
  (sortedRegistry registry).map MigrationDefinition.version

theorem sortedVersions_sorted (registry : List MigrationDefinition) :
    List.Sorted (· ≤ ·) (sortedVersions registry) :=
  List.Pairwise.map MigrationDefinition.version (fun _ _ h => h)
    (sortedRegistry_sorted registry)

theorem sortedVersions_perm (registry : List MigrationDefinition) :
    List.Perm (sortedVersions registry)
      (registry.map MigrationDefinition.version) :=
  (sortedRegistry_perm registry).map MigrationDefinition.version

/-- Two registries declaring the same multiset of versions sort to the same
version sequence: declaration order is irrelevant. -/
theorem sortedVersions_eq_of_perm {r1 r2 : List MigrationDefinition}
    (h : List.Perm (r1.map MigrationDefinition.version)
      (r2.map MigrationDefinition.version)) :
    sortedVersions r1 = sortedVersions r2 :=
  List.eq_of_perm_of_sorted
    ((sortedVersions_perm r1).trans (h.trans (sortedVersions_perm r2).symm))
    (sortedVersions_sorted r1) (sortedVersions_sorted r2)

theorem map_version_filter (L : List MigrationDefinition) (P : Nat → Bool) :
    (L.filter (fun d => P d.version)).map MigrationDefinition.version =
      (L.map MigrationDefinition.version).filter P := by
  induction L with
  | nil => rfl
  | cons d L ih =>
      by_cases h : P d.version = true <;>
        simp [List.filter_cons, h, ih]

theorem pendingVersions_eq_filter (registry : List MigrationDefinition)
    (ledger : List AppliedRecord) :
    pendingVersions registry ledger =
      (sortedVersions registry).filter
        (fun v => decide (v ∉ ledgerVersions ledger)) := by
  unfold pendingVersions pendingDefs sortedVersions
  exact map_version_filter (sortedRegistry registry)
    (fun v => decide (v ∉ ledgerVersions ledger))

/-- The pending set does not depend on the Registry's declaration order. -/
theorem pendingVersions_eq_of_perm {r1 r2 : List MigrationDefinition}
    (ledger : List AppliedRecord)
    (h : List.Perm (r1.map MigrationDefinition.version)
      (r2.map MigrationDefinition.version)) :
    pendingVersions r1 ledger = pendingVersions r2 ledger := by
  rw [pendingVersions_eq_filter, pendingVersions_eq_filter,
    sortedVersions_eq_of_perm h]

theorem pendingVersions_sorted_le (registry : List MigrationDefinition)
    (ledger : List AppliedRecord) :
    List.Sorted (· ≤ ·) (pendingVersions registry ledger) := by
  rw [pendingVersions_eq_filter]
  exact (sortedVersions_sorted registry).filter _

theorem pendingVersions_nodup {registry : List MigrationDefinition}
    (ledger : List AppliedRecord)
    (hnd : (registry.map MigrationDefinition.version).Nodup) :
    (pendingVersions registry ledger).Nodup := by
  rw [pendingVersions_eq_filter]
  exact ((sortedVersions_perm registry).nodup_iff.mpr hnd).filter _

theorem pendingVersions_sorted_lt {registry : List MigrationDefinition}
    (ledger : List AppliedRecord)
    (hnd : (registry.map MigrationDefinition.version).Nodup) :
    List.Sorted (· < ·) (pendingVersions registry ledger) :=
  (pendingVersions_sorted_le registry ledger).lt_of_le
    (pendingVersions_nodup ledger hnd)

theorem mem_pendingVersions {registry : List MigrationDefinition}
    {ledger : List AppliedRecord} {v : Nat} :
    v ∈ pendingVersions registry ledger ↔
      v ∈ registry.map MigrationDefinition.version ∧
        v ∉ ledgerVersions ledger := by
  rw [pendingVersions_eq_filter, List.mem_filter,
    (sortedVersions_perm registry).mem_iff]
  simp

theorem mem_pendingDefs {registry : List MigrationDefinition}
    {ledger : List AppliedRecord} {d : MigrationDefinition} :
    d ∈ pendingDefs registry ledger ↔
      d ∈ registry ∧ d.version ∉ ledgerVersions ledger := by
  unfold pendingDefs
  rw [List.mem_filter, (sortedRegistry_perm registry).mem_iff]
  simp

theorem pendingDefs_map_version (registry : List MigrationDefinition)
    (ledger : List AppliedRecord) :
    (pendingDefs registry ledger).map MigrationDefinition.version =
      pendingVersions registry ledger := rfl

end MigrationRunner

namespace MigrationRunner

/-! ### Helper lemmas: the ledger and the apply loop -/

theorem ledgerVersions_append (ledger : List AppliedRecord)
    (r : AppliedRecord) :
    ledgerVersions (ledger ++ [r]) = ledgerVersions ledger ++ [r.version] := by
  simp [ledgerVersions]

theorem recordApplied_of_fresh {ledger : List AppliedRecord} {v : Nat}
    (desc : String) (t : Nat) (h : v ∉ ledgerVersions ledger) :
    recordApplied ledger v desc t = some (ledger ++ [⟨v, desc, t⟩]) := by
  have hc : ledger.any (fun r => r.version == v) = false := by
    simp only [List.any_eq_false]
    intro r hr he
    exact h (List.mem_map.mpr ⟨r, hr, by simpa using he⟩)
  simp [recordApplied, hc]

/-- The record written for a definition at apply time. -/
def recordOf (now : Nat) (d : MigrationDefinition) : AppliedRecord :=
  ⟨d.version, d.description, now⟩

/-- The apply loop on a batch whose `up` bodies all succeed and whose
versions are fresh (absent from the ledger) and mutually distinct records
every migration, in order, with no failure. -/
theorem applyPending_all_ok (env : Env) (now : Nat)
    (ds : List MigrationDefinition) :
    ∀ ledger : List AppliedRecord,
      (∀ d ∈ ds, env.upOk d.version = true) →
      (∀ d ∈ ds, d.version ∉ ledgerVersions ledger) →
      (ds.map MigrationDefinition.version).Nodup →
      applyPending env now ds ledger =
        ⟨ledger ++ ds.map (recordOf now),
          ds.map MigrationDefinition.version,
          ds.map MigrationDefinition.version, none⟩ := by
  induction ds with
  | nil => intro ledger _ _ _; simp [applyPending]
  | cons d rest ih =>
      intro ledger hup hfresh hnd
      have hupd : env.upOk d.version = true :=
        hup d (List.mem_cons_self d rest)
      have hfd : d.version ∉ ledgerVersions ledger :=
        hfresh d (List.mem_cons_self d rest)
      have hrec := recordApplied_of_fresh d.description now hfd
      have hnd' : (∀ x ∈ rest, ¬ x.version = d.version) ∧
          (rest.map MigrationDefinition.version).Nodup := by
        simpa using hnd
      have hih := ih (ledger ++ [recordOf now d])
        (fun e he => hup e (List.mem_cons_of_mem d he))
        (fun e he => by
          rw [ledgerVersions_append]
          intro hmem
          rcases List.mem_append.mp hmem with hmem | hmem
          · exact hfresh e (List.mem_cons_of_mem d he) hmem
          · exact hnd'.1 e he (by simpa [recordOf] using hmem))
        hnd'.2
      simp only [applyPending, hupd, if_true, hrec, recordOf] at hih ⊢
      rw [hih]
      simp [recordOf]

/-- The apply loop on a batch whose first failing migration is `d` stops at
`d`: the earlier migrations are recorded, `d` and everything after it are
not, `d`'s up is the last one executed, and the failure names `d`. -/
theorem applyPending_first_fail (env : Env) (now : Nat)
    (d : MigrationDefinition) (post : List MigrationDefinition)
    (pre : List MigrationDefinition) :
    ∀ ledger : List AppliedRecord,
      (∀ e ∈ pre, env.upOk e.version = true) →
      env.upOk d.version = false →
      (∀ e ∈ pre, e.version ∉ ledgerVersions ledger) →
      ((pre.map MigrationDefinition.version).Nodup) →
      applyPending env now (pre ++ d :: post) ledger =
        ⟨ledger ++ pre.map (recordOf now),
          pre.map MigrationDefinition.version,
          pre.map MigrationDefinition.version ++ [d.version],
          some d.version⟩ := by
  induction pre with
  | nil =>
      intro ledger _ hd _ _
      simp [applyPending, hd]
  | cons e rest ih =>
      intro ledger hup hd hfresh hnd
      have hupe : env.upOk e.version = true :=
        hup e (List.mem_cons_self e rest)
      have hfe : e.version ∉ ledgerVersions ledger :=
        hfresh e (List.mem_cons_self e rest)
      have hrec := recordApplied_of_fresh e.description now hfe
      have hnd' : (∀ x ∈ rest, ¬ x.version = e.version) ∧
          (rest.map MigrationDefinition.version).Nodup := by
        simpa using hnd
      have hih := ih (ledger ++ [recordOf now e])
        (fun x hx => hup x (List.mem_cons_of_mem e hx))
        hd
        (fun x hx => by
          rw [ledgerVersions_append]
          intro hmem
          rcases List.mem_append.mp hmem with hmem | hmem
          · exact hfresh x (List.mem_cons_of_mem e hx) hmem
          · exact hnd'.1 x hx (by simpa [recordOf] using hmem))
        hnd'.2
      simp only [List.cons_append, applyPending, hupe, if_true, hrec,
        recordOf, List.append_eq] at hih ⊢
      rw [hih]
      simp [recordOf]

end MigrationRunner

namespace MigrationRunner

/-! ### Helper lemmas: the runner -/

theorem tryAcquire_holder {store : Option LockRecord} {holder : String}
    {now leaseDuration : Nat} {lk : LockRecord}
    (h : tryAcquire store holder now leaseDuration = some lk) :
    lk.holder = holder := by
  cases store with
  | none => simp [tryAcquire] at h; rw [← h]
  | some r =>
      by_cases hexp : r.leaseExpiresAt < now
      · simp [tryAcquire, hexp] at h; rw [← h]
      · simp [tryAcquire, hexp] at h

theorem releaseLock_self {store : Option LockRecord} {holder : String}
    {now leaseDuration : Nat} {lk : LockRecord}
    (h : tryAcquire store holder now leaseDuration = some lk) :
    releaseLock (some lk) holder = none := by
  simp [releaseLock, tryAcquire_holder h]

/-- Whatever happens inside the batch, a run that obtained the lock ends
with the lock released. -/
theorem runMigrations_releases_lock {registry : List MigrationDefinition}
    {env : Env} {holder : String} {now leaseDuration : Nat} {s : RunnerState}
    {lk : LockRecord}
    (h : tryAcquire s.lock holder now leaseDuration = some lk) :
    (runMigrations registry env holder now leaseDuration s).state.lock =
      none := by
  unfold runMigrations
  rw [h]
  cases hfail : (applyPending env now (pendingDefs registry s.ledger)
    s.ledger).failed <;>
    simp [hfail, releaseLock_self h]

/-- A run whose apply loop did not fail appended exactly the pending
records to the ledger. -/
theorem applyPending_ok_ledger (env : Env) (now : Nat)
    (ds : List MigrationDefinition) :
    ∀ ledger : List AppliedRecord,
      (applyPending env now ds ledger).failed = none →
      (applyPending env now ds ledger).ledger =
        ledger ++ ds.map (recordOf now) := by
  induction ds with
  | nil => intro ledger _; simp [applyPending]
  | cons d rest ih =>
      intro ledger hfail
      by_cases hupd : env.upOk d.version = true
      · cases hrec : recordApplied ledger d.version d.description now with
        | none => simp [applyPending, hupd, hrec] at hfail
        | some ln =>
            have hln : ln = ledger ++ [recordOf now d] := by
              by_cases hc :
                  (ledger.any (fun r => r.version == d.version)) = true
              · simp [recordApplied, hc] at hrec
              · simp [recordApplied, hc, recordOf] at hrec
                exact hrec.symm
            simp only [applyPending, hupd, if_true, hrec] at hfail ⊢
            rw [ih ln hfail, hln]
            simp
      · simp [applyPending, hupd] at hfail

/-- Versions of the records written for a batch. -/
theorem ledgerVersions_map_recordOf (now : Nat)
    (ds : List MigrationDefinition) :
    ledgerVersions (ds.map (recordOf now)) =
      ds.map MigrationDefinition.version := by
  simp [ledgerVersions, recordOf, List.map_map]

theorem ledgerVersions_append_general (l1 l2 : List AppliedRecord) :
    ledgerVersions (l1 ++ l2) = ledgerVersions l1 ++ ledgerVersions l2 := by
  simp [ledgerVersions]

end MigrationRunner

namespace MigrationRunner

/-- Sample concrete inputs used by the witnesses: a registry declared out of
ascending order, an environment whose bodies all succeed, an empty
persistent state. -/
def sampleRegistry : List MigrationDefinition :=
  [⟨3, "three", true⟩, ⟨1, "one", true⟩, ⟨2, "two", true⟩]

/-- Environment in which every migration body succeeds. -/
def allOkEnv : Env := ⟨fun _ => true, fun _ => true⟩

/-- Empty persistent state: empty ledger, no lock record. -/
def emptyState : RunnerState := ⟨[], none⟩

/-- Claim C1: for every Registry with unique versions and every Ledger
state, `run()` computes the pending set as the sorted Registry minus the
applied versions — membership is exactly "declared in the Registry and not
applied", and the pending sequence is strictly ascending in version — and,
once the lock is obtained and the pending `up` bodies succeed, executes the
`up` operations exactly in that ascending order, returning them as the
applied list; the pending sequence is independent of the order in which the
Registry declared the definitions. -/
theorem runMigrations_pending_sorted
    (registry : List MigrationDefinition) (env : Env) (holder : String)
    (now leaseDuration : Nat) (s : RunnerState)
    (hnd : (registry.map MigrationDefinition.version).Nodup)
    (hacq : (tryAcquire s.lock holder now leaseDuration).isSome = true)
    (hup : ∀ v ∈ pendingVersions registry s.ledger, env.upOk v = true) :
    (∀ v, v ∈ pendingVersions registry s.ledger ↔
        v ∈ registry.map MigrationDefinition.version ∧
          v ∉ ledgerVersions s.ledger)
    ∧ List.Sorted (· < ·) (pendingVersions registry s.ledger)
    ∧ (runMigrations registry env holder now leaseDuration s).exec =
        pendingVersions registry s.ledger
    ∧ (runMigrations registry env holder now leaseDuration s).result =
        RunResult.ok (pendingVersions registry s.ledger)
    ∧ ∀ registry2 : List MigrationDefinition,
        List.Perm (registry2.map MigrationDefinition.version)
          (registry.map MigrationDefinition.version) →
        pendingVersions registry2 s.ledger =
          pendingVersions registry s.ledger := by
  obtain ⟨lk, hlk⟩ := Option.isSome_iff_exists.mp hacq
  have happly := applyPending_all_ok env now (pendingDefs registry s.ledger)
    s.ledger
    (fun d hd => hup d.version
      (List.mem_map_of_mem MigrationDefinition.version hd))
    (fun d hd => (mem_pendingDefs.mp hd).2)
    (pendingVersions_nodup s.ledger hnd)
  refine ⟨fun v => mem_pendingVersions,
    pendingVersions_sorted_lt s.ledger hnd, ?_, ?_,
    fun registry2 h => pendingVersions_eq_of_perm s.ledger h⟩ <;>
    simp [runMigrations, hlk, happly, pendingDefs_map_version]

/-- Witness for C1 at a concrete out-of-order registry: the run applies the
pending versions in ascending order. -/
theorem runMigrations_pending_sorted_witness :
    (runMigrations sampleRegistry allOkEnv "runner-1" 10 5
        emptyState).result =
      RunResult.ok (pendingVersions sampleRegistry emptyState.ledger) :=
  (runMigrations_pending_sorted sampleRegistry allOkEnv "runner-1" 10 5
    emptyState (by decide) (by decide) (by decide)).2.2.2.1

end MigrationRunner

namespace MigrationRunner

/-- Claim C2: a `run()` that succeeds, followed immediately by a second
`run()` (with any holder, any clock, any environment), applies no migration
the second time: the second run executes no `up` body, leaves the ledger
unchanged, and returns the empty applied-list. -/
theorem runMigrations_idempotent
    (registry : List MigrationDefinition) (env env2 : Env)
    (holder holder2 : String) (now leaseDuration now2 leaseDuration2 : Nat)
    (s : RunnerState) (vs : List Nat)
    (hok : (runMigrations registry env holder now leaseDuration s).result =
      RunResult.ok vs) :
    (runMigrations registry env2 holder2 now2 leaseDuration2
        (runMigrations registry env holder now leaseDuration s).state).result =
      RunResult.ok []
    ∧ (runMigrations registry env2 holder2 now2 leaseDuration2
        (runMigrations registry env holder now leaseDuration s).state).exec =
      []
    ∧ (runMigrations registry env2 holder2 now2 leaseDuration2
        (runMigrations registry env holder now leaseDuration s).state).state.ledger =
      (runMigrations registry env holder now leaseDuration s).state.ledger := by
  obtain ⟨lk, hlk⟩ : ∃ lk,
      tryAcquire s.lock holder now leaseDuration = some lk := by
    cases hl : tryAcquire s.lock holder now leaseDuration with
    | none => rw [runMigrations, hl] at hok; exact absurd hok (by simp)
    | some lk => exact ⟨lk, rfl⟩
  have hfail : (applyPending env now (pendingDefs registry s.ledger)
      s.ledger).failed = none := by
    cases hf : (applyPending env now (pendingDefs registry s.ledger)
      s.ledger).failed with
    | none => rfl
    | some v =>
        rw [runMigrations, hlk] at hok
        simp only [hf] at hok
        exact absurd hok (by simp)
  have hledger := applyPending_ok_ledger env now
    (pendingDefs registry s.ledger) s.ledger hfail
  have hstate : (runMigrations registry env holder now leaseDuration s).state =
      ⟨s.ledger ++ (pendingDefs registry s.ledger).map (recordOf now),
        none⟩ := by
    rw [runMigrations, hlk]
    simp only [hfail]
    simp [releaseLock_self hlk, hledger]
  have hcover : ∀ v ∈ registry.map MigrationDefinition.version,
      v ∈ ledgerVersions (s.ledger ++
        (pendingDefs registry s.ledger).map (recordOf now)) := by
    intro v hv
    rw [ledgerVersions_append_general, ledgerVersions_map_recordOf,
      pendingDefs_map_version, List.mem_append]
    by_cases hin : v ∈ ledgerVersions s.ledger
    · exact Or.inl hin
    · exact Or.inr (mem_pendingVersions.mpr ⟨hv, hin⟩)
  have hpend2 : pendingDefs registry (s.ledger ++
      (pendingDefs registry s.ledger).map (recordOf now)) = [] := by
    unfold pendingDefs
    rw [List.filter_eq_nil_iff]
    intro d hd
    simp only [decide_eq_true_eq, not_not]
    exact hcover d.version (List.mem_map_of_mem MigrationDefinition.version
      ((sortedRegistry_perm registry).mem_iff.mp hd))
  rw [hstate]
  simp [runMigrations, tryAcquire, hpend2, applyPending]

/-- Witness for C2: after a successful run on the sample registry, a second
run returns the empty applied-list. -/
theorem runMigrations_idempotent_witness :
    (runMigrations sampleRegistry allOkEnv "runner-2" 20 5
        (runMigrations sampleRegistry allOkEnv "runner-1" 10 5
          emptyState).state).result = RunResult.ok [] :=
  (runMigrations_idempotent sampleRegistry allOkEnv allOkEnv "runner-1"
    "runner-2" 10 5 20 5 emptyState [1, 2, 3] (by decide)).1

end MigrationRunner

namespace MigrationRunner

/-- Claim C3: if the `up` of some pending migration fails during `run()`
(the pending sequence splits as `pre ++ f :: post` with every `up` in `pre`
succeeding and `f`'s failing), then only `pre`'s and `f`'s `up` bodies are
executed — no subsequent pending migration is attempted — the failed
version is not recorded, the lock is released, the result is
`MigrationFailed` naming exactly `f`'s version and the versions applied
earlier in the same run, and the ledger afterwards holds exactly the
previously applied versions plus the ones that succeeded before the
failure. -/
theorem runMigrations_stops_at_failure
    (registry : List MigrationDefinition) (env : Env) (holder : String)
    (now leaseDuration : Nat) (s : RunnerState)
    (pre : List MigrationDefinition) (f : MigrationDefinition)
    (post : List MigrationDefinition)
    (hnd : (registry.map MigrationDefinition.version).Nodup)
    (hacq : (tryAcquire s.lock holder now leaseDuration).isSome = true)
    (hsplit : pendingDefs registry s.ledger = pre ++ f :: post)
    (hpre : ∀ e ∈ pre, env.upOk e.version = true)
    (hf : env.upOk f.version = false) :
    (runMigrations registry env holder now leaseDuration s).exec =
        pre.map MigrationDefinition.version ++ [f.version]
    ∧ (∀ e ∈ post, e.version ∉
        (runMigrations registry env holder now leaseDuration s).exec)
    ∧ (runMigrations registry env holder now leaseDuration s).result =
        RunResult.migrationFailed f.version
          (pre.map MigrationDefinition.version)
    ∧ (runMigrations registry env holder now leaseDuration s).state.lock =
        none
    ∧ ledgerVersions
        (runMigrations registry env holder now leaseDuration s).state.ledger =
        ledgerVersions s.ledger ++ pre.map MigrationDefinition.version
    ∧ f.version ∉ ledgerVersions
        (runMigrations registry env holder now leaseDuration s).state.ledger := by
  obtain ⟨lk, hlk⟩ := Option.isSome_iff_exists.mp hacq
  have hndp : (pendingVersions registry s.ledger).Nodup :=
    pendingVersions_nodup s.ledger hnd
  rw [← pendingDefs_map_version, hsplit] at hndp
  simp only [List.map_append, List.map_cons] at hndp
  rw [List.nodup_append] at hndp
  obtain ⟨hndpre, hndrest, hdisj⟩ := hndp
  have hfnotpre : f.version ∉ pre.map MigrationDefinition.version := by
    intro hmem
    exact hdisj hmem (List.mem_cons_self _ _)
  have hfnotpost : ∀ e ∈ post, e.version ≠ f.version := by
    intro e he heq
    exact (List.nodup_cons.mp hndrest).1
      (heq ▸ List.mem_map_of_mem MigrationDefinition.version he)
  have hpostnotpre : ∀ e ∈ post, e.version ∉
      pre.map MigrationDefinition.version := by
    intro e he hmem
    exact hdisj hmem (List.mem_cons_of_mem _
      (List.mem_map_of_mem MigrationDefinition.version he))
  have hfreshpre : ∀ e ∈ pre, e.version ∉ ledgerVersions s.ledger := by
    intro e he
    exact (mem_pendingDefs.mp
      (hsplit ▸ List.mem_append_left _ he)).2
  have hffresh : f.version ∉ ledgerVersions s.ledger :=
    (mem_pendingDefs.mp
      (hsplit ▸ List.mem_append_right _ (List.mem_cons_self _ _))).2
  have happly := applyPending_first_fail env now f post pre s.ledger hpre hf
    hfreshpre hndpre
  have hrun : runMigrations registry env holder now leaseDuration s =
      ⟨⟨s.ledger ++ pre.map (recordOf now), none⟩,
        pre.map MigrationDefinition.version ++ [f.version],
        RunResult.migrationFailed f.version
          (pre.map MigrationDefinition.version)⟩ := by
    rw [runMigrations, hlk, hsplit, happly]
    simp [releaseLock_self hlk]
  refine ⟨by rw [hrun], ?_, by rw [hrun], by rw [hrun], ?_, ?_⟩
  · intro e he
    rw [hrun]
    simp only [List.mem_append, List.mem_singleton]
    rintro (hmem | hmem)
    · exact hpostnotpre e he hmem
    · exact hfnotpost e he hmem
  · rw [hrun, ledgerVersions_append_general, ledgerVersions_map_recordOf]
  · rw [hrun]
    simp only [ledgerVersions_append_general, ledgerVersions_map_recordOf,
      List.mem_append]
    rintro (hmem | hmem)
    · exact hffresh hmem
    · exact hfnotpre hmem

/-- Environment in which the `up` body of version 2 fails and every other
body succeeds. -/
def failTwoEnv : Env := ⟨fun v => decide (v ≠ 2), fun _ => true⟩

/-- Witness for C3: on the sample registry with `up(2)` failing, the run
fails at version 2 having applied exactly version 1. -/
theorem runMigrations_stops_at_failure_witness :
    (runMigrations sampleRegistry failTwoEnv "runner-1" 10 5
        emptyState).result = RunResult.migrationFailed 2 [1] :=
  (runMigrations_stops_at_failure sampleRegistry failTwoEnv "runner-1" 10 5
    emptyState [⟨1, "one", true⟩] ⟨2, "two", true⟩ [⟨3, "three", true⟩]
    (by decide) (by decide) (by decide) (by decide) (by decide)).2.2.1

end MigrationRunner

namespace MigrationRunner

/-! ### Helper lemmas: rollback -/

theorem maxLedgerEntry_eq_none {ledger : List AppliedRecord} :
    maxLedgerEntry ledger = none ↔ ledger = [] := by
  cases ledger with
  | nil => simp [maxLedgerEntry]
  | cons r rest =>
      simp only [maxLedgerEntry]
      cases maxLedgerEntry rest with
      | none => simp
      | some m =>
          by_cases h : m.version < r.version <;> simp [h]

theorem maxLedgerEntry_mem : ∀ {ledger : List AppliedRecord}
    {r : AppliedRecord}, maxLedgerEntry ledger = some r → r ∈ ledger := by
  intro ledger
  induction ledger with
  | nil => intro r h; simp [maxLedgerEntry] at h
  | cons e rest ih =>
      intro r h
      simp only [maxLedgerEntry] at h
      cases hm : maxLedgerEntry rest with
      | none =>
          rw [hm] at h
          simp at h
          rw [← h]
          exact List.mem_cons_self e rest
      | some m =>
          rw [hm] at h
          by_cases hv : m.version < e.version
          · simp [hv] at h
            rw [← h]
            exact List.mem_cons_self e rest
          · simp [hv] at h
            exact List.mem_cons_of_mem e (ih (h ▸ hm))

theorem maxLedgerEntry_ge : ∀ {ledger : List AppliedRecord}
    {r : AppliedRecord}, maxLedgerEntry ledger = some r →
    ∀ e ∈ ledger, e.version ≤ r.version := by
  intro ledger
  induction ledger with
  | nil => intro r h; simp [maxLedgerEntry] at h
  | cons x rest ih =>
      intro r h e he
      simp only [maxLedgerEntry] at h
      cases hm : maxLedgerEntry rest with
      | none =>
          have hrest : rest = [] := maxLedgerEntry_eq_none.mp hm
          rw [hm] at h
          simp at h
          subst hrest
          rcases List.mem_cons.mp he with rfl | habs
          · rw [← h]
          · simp at habs
      | some m =>
          rw [hm] at h
          rcases List.mem_cons.mp he with rfl | hrest
          · by_cases hv : m.version < e.version
            · simp [hv] at h; rw [← h]
            · simp [hv] at h
              rw [← h]
              exact Nat.le_of_not_lt hv
          · have hm' := ih hm e hrest
            by_cases hv : m.version < x.version
            · simp [hv] at h
              rw [← h]
              exact Nat.le_trans hm' (Nat.le_of_lt hv)
            · simp [hv] at h
              rw [← h]
              exact hm'

theorem mem_removeApplied {ledger : List AppliedRecord} {v : Nat}
    {e : AppliedRecord} :
    e ∈ removeApplied ledger v ↔ e ∈ ledger ∧ e.version ≠ v := by
  simp [removeApplied, List.mem_filter]

theorem removeApplied_length {ledger : List AppliedRecord}
    {r : AppliedRecord} (hmem : r ∈ ledger)
    (hnd : (ledgerVersions ledger).Nodup) :
    (removeApplied ledger r.version).length + 1 = ledger.length := by
  induction ledger with
  | nil => simp at hmem
  | cons e rest ih =>
      have hnd' : (∀ x ∈ rest, ¬ x.version = e.version) ∧
          (ledgerVersions rest).Nodup := by
        simpa [ledgerVersions] using hnd
      by_cases hv : e.version = r.version
      · have hrest : removeApplied rest r.version = rest := by
          rw [removeApplied, List.filter_eq_self]
          intro x hx
          simp only [decide_eq_true_eq]
          intro heq
          exact hnd'.1 x hx (heq.trans hv.symm)
        have hhead : removeApplied (e :: rest) r.version =
            removeApplied rest r.version := by
          simp [removeApplied, List.filter_cons, hv]
        rw [hhead, hrest]
        simp
      · have hmem' : r ∈ rest := by
          rcases List.mem_cons.mp hmem with rfl | h
          · exact absurd rfl hv
          · exact h
        have := ih hmem' hnd'.2
        simp only [removeApplied, List.filter_cons,
          decide_eq_true_eq] at this ⊢
        simp [hv, ← this]

/-- Claim C4: with the lock obtained and a version-unique ledger,
`rollbackLastMigration()` fails with `NothingToRollback` on an empty
ledger; otherwise it targets the ledger entry with the maximum version:
when that entry has a registry definition with a `down` that succeeds,
exactly that entry is removed and every other entry stays applied; when the
`down` fails, the entry stays intact and `RollbackFailed` names its
version; in every case at most one entry is removed. -/
theorem rollbackLastMigration_cases
    (registry : List MigrationDefinition) (env : Env) (holder : String)
    (now leaseDuration : Nat) (s : RunnerState)
    (hnd : (ledgerVersions s.ledger).Nodup)
    (hacq : (tryAcquire s.lock holder now leaseDuration).isSome = true) :
    (s.ledger = [] →
      (rollbackLastMigration registry env holder now leaseDuration s).result =
          RollbackResult.nothingToRollback
      ∧ (rollbackLastMigration registry env holder now leaseDuration
          s).state.ledger = s.ledger)
    ∧ (∀ r, maxLedgerEntry s.ledger = some r →
        (r ∈ s.ledger ∧ ∀ e ∈ s.ledger, e.version ≤ r.version)
        ∧ (∀ d, findDef registry r.version = some d → d.hasDown = true →
            env.downOk r.version = true →
            (rollbackLastMigration registry env holder now leaseDuration
                s).result = RollbackResult.ok r.version
            ∧ r ∉ (rollbackLastMigration registry env holder now
                leaseDuration s).state.ledger
            ∧ (∀ e ∈ s.ledger, e.version ≠ r.version →
                e ∈ (rollbackLastMigration registry env holder now
                  leaseDuration s).state.ledger)
            ∧ (rollbackLastMigration registry env holder now leaseDuration
                s).state.ledger.length + 1 = s.ledger.length)
        ∧ (∀ d, findDef registry r.version = some d → d.hasDown = true →
            env.downOk r.version = false →
            (rollbackLastMigration registry env holder now leaseDuration
                s).result = RollbackResult.rollbackFailed r.version
            ∧ (rollbackLastMigration registry env holder now leaseDuration
                s).state.ledger = s.ledger))
    ∧ s.ledger.length ≤
        (rollbackLastMigration registry env holder now leaseDuration
          s).state.ledger.length + 1 := by
  obtain ⟨lk, hlk⟩ := Option.isSome_iff_exists.mp hacq
  refine ⟨?_, ?_, ?_⟩
  · intro hempty
    have hmax : maxLedgerEntry s.ledger = none :=
      maxLedgerEntry_eq_none.mpr hempty
    rw [rollbackLastMigration, hlk]
    simp [hmax]
  · intro r hmax
    refine ⟨⟨maxLedgerEntry_mem hmax, maxLedgerEntry_ge hmax⟩, ?_, ?_⟩
    · intro d hfind hdown hdok
      rw [rollbackLastMigration, hlk]
      simp only [hmax, hfind, hdown, hdok, if_true]
      refine ⟨trivial, ?_, ?_, ?_⟩
      · intro hmem
        exact (mem_removeApplied.mp hmem).2 rfl
      · intro e he hne
        exact mem_removeApplied.mpr ⟨he, hne⟩
      · exact removeApplied_length (maxLedgerEntry_mem hmax) hnd
    · intro d hfind hdown hdok
      rw [rollbackLastMigration, hlk]
      simp [hmax, hfind, hdown, hdok]
  · rw [rollbackLastMigration, hlk]
    cases hmax : maxLedgerEntry s.ledger with
    | none => simp
    | some r =>
        cases hfind : findDef registry r.version with
        | none => simp [hfind]
        | some d =>
            by_cases hdown : d.hasDown = true
            · by_cases hdok : env.downOk r.version = true
              · simp only [hfind, hdown, hdok, if_true]
                rw [← removeApplied_length (maxLedgerEntry_mem hmax) hnd]
              · simp [hfind, hdown, hdok]
            · simp [hfind, hdown]

/-- Ledger state after applying versions 1 and 2. -/
def twoAppliedState : RunnerState :=
  ⟨[⟨1, "one", 10⟩, ⟨2, "two", 10⟩], none⟩

/-- Witness for C4: with versions 1 and 2 applied, rollback removes exactly
version 2 (entry count drops by one and entry 2 is gone). -/
theorem rollbackLastMigration_cases_witness :
    (rollbackLastMigration sampleRegistry allOkEnv "runner-1" 20 5
        twoAppliedState).result = RollbackResult.ok 2 :=
  ((((rollbackLastMigration_cases sampleRegistry allOkEnv "runner-1" 20 5
    twoAppliedState (by decide) (by decide)).2.1 ⟨2, "two", 10⟩
    (by decide)).2.1 ⟨2, "two", true⟩ (by decide) (by decide)
    (by decide)).1)

end MigrationRunner

namespace MigrationRunner

/-- Claim C5: in every reachable state of the lock store at most one
unexpired `LockRecord` exists; acquisition is a single conditional write
that succeeds exactly when no record exists or the existing record's lease
expiry is in the past; and release deletes the record only when its holder
still matches the caller — a mismatched release leaves the store
untouched. -/
theorem lockStore_invariant (s : Option LockRecord) (hreach : LockReach s) :
    (∀ now : Nat, unexpiredCount now s ≤ 1)
    ∧ (∀ (holder : String) (now leaseDuration : Nat),
        (tryAcquire s holder now leaseDuration).isSome = true ↔
          (s = none ∨ ∃ r, s = some r ∧ r.leaseExpiresAt < now))
    ∧ (∀ holder : String, releaseLock s holder = none →
        s = none ∨ ∃ r, s = some r ∧ r.holder = holder)
    ∧ (∀ (holder : String) (r : LockRecord), s = some r →
        r.holder ≠ holder → releaseLock s holder = s) := by
  refine ⟨?_, ?_, ?_, ?_⟩
  · intro now
    cases s with
    | none => simp [unexpiredCount]
    | some r =>
        by_cases h : now ≤ r.leaseExpiresAt <;> simp [unexpiredCount, h]
  · intro holder now leaseDuration
    cases s with
    | none => simp [tryAcquire]
    | some r =>
        by_cases h : r.leaseExpiresAt < now <;> simp [tryAcquire, h]
  · intro holder hrel
    cases s with
    | none => exact Or.inl rfl
    | some r =>
        by_cases h : r.holder = holder
        · exact Or.inr ⟨r, rfl, h⟩
        · simp [releaseLock, h] at hrel
  · intro holder r hs hne
    subst hs
    simp [releaseLock, hne]

/-- Witness for C5 at a concrete reachable state: the store holding a lock
record acquired by "runner-1" at time 10 with lease 5. -/
theorem lockStore_invariant_witness :
    (∀ now : Nat,
        unexpiredCount now (some ⟨"runner-1", 10, 15⟩) ≤ 1)
    ∧ (∀ (holder : String) (now leaseDuration : Nat),
        (tryAcquire (some ⟨"runner-1", 10, 15⟩) holder now
            leaseDuration).isSome = true ↔
          ((some ⟨"runner-1", 10, 15⟩ : Option LockRecord) = none ∨
            ∃ r, (some ⟨"runner-1", 10, 15⟩ : Option LockRecord) = some r ∧
              r.leaseExpiresAt < now))
    ∧ (∀ holder : String,
        releaseLock (some ⟨"runner-1", 10, 15⟩) holder = none →
          (some ⟨"runner-1", 10, 15⟩ : Option LockRecord) = none ∨
            ∃ r, (some ⟨"runner-1", 10, 15⟩ : Option LockRecord) = some r ∧
              r.holder = holder)
    ∧ (∀ (holder : String) (r : LockRecord),
        (some ⟨"runner-1", 10, 15⟩ : Option LockRecord) = some r →
        r.holder ≠ holder →
        releaseLock (some ⟨"runner-1", 10, 15⟩) holder =
          some ⟨"runner-1", 10, 15⟩) :=
  lockStore_invariant (some ⟨"runner-1", 10, 15⟩)
    (LockReach.acq "runner-1" 10 5 (by decide) LockReach.init)

/-- Claim C6 (amended): a ledger entry with no matching registry definition
is surfaced in the separate orphaned list of the status view — it is not
silently dropped — but no per-registry status entry (and hence no line
printed by the `migrate status` command, which prints exactly those
entries) is for the orphan's version. -/
theorem status_orphan_surfaced
    (registry : List MigrationDefinition) (ledger : List AppliedRecord)
    (r : AppliedRecord) (hmem : r ∈ ledger)
    (horph : ∀ d ∈ registry, d.version ≠ r.version) :
    r ∈ (statusReport registry ledger).orphaned
    ∧ ∀ e ∈ (statusReport registry ledger).entries, e.version ≠ r.version := by
  constructor
  · have hfind : findDef registry r.version = none := by
      rw [findDef, List.find?_eq_none]
      intro d hd
      simpa using horph d hd
    simp [statusReport, List.mem_filter, hmem, hfind]
  · intro e he
    simp only [statusReport, List.mem_map] at he
    obtain ⟨d, hd, hde⟩ := he
    have hdreg : d ∈ registry := (sortedRegistry_perm registry).mem_iff.mp hd
    have hv : e.version = d.version := by
      cases hfind : ledger.find? (fun x => x.version == d.version) <;>
        rw [hfind] at hde <;> rw [← hde]
    rw [hv]
    exact horph d hdreg

/-- Registry and ledger exhibiting an orphaned entry (version 9 applied but
absent from the registry). -/
def orphanRegistry : List MigrationDefinition := [⟨1, "one", true⟩]

/-- Ledger holding an applied record for version 1 and an orphaned record
for version 9. -/
def orphanLedger : List AppliedRecord := [⟨1, "one", 5⟩, ⟨9, "nine", 7⟩]

/-- Counterexample to claim C6 as stated: the ledger entry for version 9 is
orphaned and duly surfaced in the status view's orphaned list, but the
`migrate status` command's printed output — the header plus exactly one
line per registry entry — contains no line for version 9: the command's
output does not include orphaned entries. -/
theorem status_orphan_not_printed
    : (⟨9, "nine", 7⟩ : AppliedRecord) ∈
        (statusReport orphanRegistry orphanLedger).orphaned
    ∧ (∀ e ∈ (statusReport orphanRegistry orphanLedger).entries,
        e.version ≠ 9)
    ∧ (MigrateCli.cliMain (some "status") orphanRegistry allOkEnv
        "runner-1" 20 5 ⟨orphanLedger, none⟩).output =
      ["", "Migration Status:", "================", "✓ 1: one (5)"] := by
  refine ⟨by decide, by decide, ?_⟩
  rfl

/-- Claim C7: `getMigrationStatus()` acquires no lock and leaves both the
ledger and the lock record unchanged — it returns the persistent state it
was given, whatever that state is, and its view is a pure function of the
registry and the ledger. -/
theorem getMigrationStatus_readonly
    (registry : List MigrationDefinition) (s : RunnerState) :
    (getMigrationStatus registry s).1 = s
    ∧ (getMigrationStatus registry s).1.lock = s.lock
    ∧ (getMigrationStatus registry s).1.ledger = s.ledger
    ∧ (getMigrationStatus registry s).2 = statusReport registry s.ledger :=
  ⟨rfl, rfl, rfl, rfl⟩

end MigrationRunner

namespace MigrationRunner

/-- Witness for C6 (amended): the version-9 ledger entry with no registry
definition lands in the orphaned list. -/
theorem status_orphan_surfaced_witness :
    (⟨9, "nine", 7⟩ : AppliedRecord) ∈
      (statusReport orphanRegistry orphanLedger).orphaned :=
  (status_orphan_surfaced orphanRegistry orphanLedger ⟨9, "nine", 7⟩
    (by decide) (by decide)).1

end MigrationRunner

namespace MigrateCli

open MigrationRunner

/-- Claim C8: `migrate up` prints one line per version applied by a
successful `run()` and exits 0; when `run()` fails, the CLI prints the
error line and exits 1; `migrate down` exits 1 with the error line printed
on every failure of `rollbackLastMigration()` — no failure is silently
swallowed. -/
theorem cliMain_failure_propagation
    (registry : List MigrationDefinition) (env : Env) (holder : String)
    (now leaseDuration : Nat) (s : RunnerState) :
    (∀ vs, (runMigrations registry env holder now leaseDuration s).result =
        RunResult.ok vs →
      cliMain (some "up") registry env holder now leaseDuration s =
        ⟨(runMigrations registry env holder now leaseDuration s).state, 0,
          vs.map appliedLine⟩)
    ∧ (runFailed
        (runMigrations registry env holder now leaseDuration s).result =
          true →
        (cliMain (some "up") registry env holder now leaseDuration
            s).exitCode = 1
        ∧ migrationErrorLine (runFailureMessage
            (runMigrations registry env holder now leaseDuration s).result) ∈
          (cliMain (some "up") registry env holder now leaseDuration
            s).output)
    ∧ (rollbackFailed
        (rollbackLastMigration registry env holder now leaseDuration
          s).result = true →
        (cliMain (some "down") registry env holder now leaseDuration
            s).exitCode = 1
        ∧ migrationErrorLine (rollbackFailureMessage
            (rollbackLastMigration registry env holder now leaseDuration
              s).result) ∈
          (cliMain (some "down") registry env holder now leaseDuration
            s).output) := by
  refine ⟨?_, ?_, ?_⟩
  · intro vs hok
    simp [cliMain, hok]
  · intro hfail
    cases hr : (runMigrations registry env holder now leaseDuration
      s).result with
    | ok vs => rw [hr] at hfail; simp [runFailed] at hfail
    | migrationFailed v applied =>
        constructor <;> simp [cliMain, hr]
    | lockContention =>
        constructor <;> simp [cliMain, hr]
  · intro hfail
    cases hr : (rollbackLastMigration registry env holder now leaseDuration
      s).result with
    | ok v => rw [hr] at hfail; simp [rollbackFailed] at hfail
    | nothingToRollback => constructor <;> simp [cliMain, hr]
    | orphanMigration v => constructor <;> simp [cliMain, hr]
    | irreversible v => constructor <;> simp [cliMain, hr]
    | rollbackFailed v => constructor <;> simp [cliMain, hr]
    | lockContention => constructor <;> simp [cliMain, hr]

/-- Witness for C8: `migrate down` on an empty ledger (rollback fails with
`NothingToRollback`) exits with code 1. -/
theorem cliMain_failure_propagation_witness :
    (cliMain (some "down") sampleRegistry allOkEnv "runner-1" 10 5
        emptyState).exitCode = 1 :=
  ((cliMain_failure_propagation sampleRegistry allOkEnv "runner-1" 10 5
    emptyState).2.2 (by decide)).1

/-- Claim C9: `migrate status` prints the header plus exactly one line per
Registry entry — each line carrying the ✓/○ applied marker, the version,
the description and the applied timestamp when present — and exits 0;
an unrecognized command (and a missing one) prints the usage text and
exits 1. -/
theorem cliMain_status_output
    (registry : List MigrationDefinition) (env : Env) (holder : String)
    (now leaseDuration : Nat) (s : RunnerState) (cmd : String) :
    (cliMain (some "status") registry env holder now leaseDuration
        s).output =
      statusHeader ++ (statusReport registry s.ledger).entries.map renderLine
    ∧ (cliMain (some "status") registry env holder now leaseDuration
        s).exitCode = 0
    ∧ ((statusReport registry s.ledger).entries.map renderLine).length =
        registry.length
    ∧ (∀ e ∈ (statusReport registry s.ledger).entries,
        renderLine e = (if e.applied then "✓" else "○") ++ " " ++
          toString e.version ++ ": " ++ e.description ++
          (match e.appliedAt with
           | some t => " (" ++ toString t ++ ")"
           | none => ""))
    ∧ (cmd ≠ "up" → cmd ≠ "down" → cmd ≠ "status" →
        cliMain (some cmd) registry env holder now leaseDuration s =
          ⟨s, 1, usageLines⟩)
    ∧ cliMain none registry env holder now leaseDuration s =
        ⟨s, 1, usageLines⟩ := by
  refine ⟨by simp [cliMain], by simp [cliMain], ?_, ?_, ?_, by simp [cliMain]⟩
  · simp [statusReport, sortedRegistry]
  · intro e _
    rfl
  · intro h1 h2 h3
    simp [cliMain, h1, h2, h3]

/-- Witness for C9: the unrecognized command "bogus" prints usage and exits
with code 1. -/
theorem cliMain_status_output_witness :
    cliMain (some "bogus") sampleRegistry allOkEnv "runner-1" 10 5
        emptyState = ⟨emptyState, 1, usageLines⟩ :=
  (cliMain_status_output sampleRegistry allOkEnv "runner-1" 10 5 emptyState
    "bogus").2.2.2.2.1 (by decide) (by decide) (by decide)

/-- Claim C10: the CLI's exit code is always 0 or 1, and it is 0 exactly
when the command is `up`, `down` or `status` and the corresponding runner
operation returns without failing; every other invocation — a runner
failure or an unrecognized or missing command — exits with code 1. -/
theorem cliMain_exit_code
    (cmd : Option String) (registry : List MigrationDefinition) (env : Env)
    (holder : String) (now leaseDuration : Nat) (s : RunnerState) :
    ((cliMain cmd registry env holder now leaseDuration s).exitCode = 0 ∨
      (cliMain cmd registry env holder now leaseDuration s).exitCode = 1)
    ∧ ((cliMain cmd registry env holder now leaseDuration s).exitCode = 0 ↔
        (cmd = some "up" ∧ runFailed
          (runMigrations registry env holder now leaseDuration s).result =
            false)
        ∨ (cmd = some "down" ∧ rollbackFailed
          (rollbackLastMigration registry env holder now leaseDuration
            s).result = false)
        ∨ cmd = some "status") := by
  cases cmd with
  | none => simp [cliMain]
  | some c =>
      by_cases hup : c = "up"
      · subst hup
        cases hr : (runMigrations registry env holder now leaseDuration
          s).result with
        | ok vs => simp [cliMain, hr, runFailed]
        | migrationFailed v applied => simp [cliMain, hr, runFailed]
        | lockContention => simp [cliMain, hr, runFailed]
      · by_cases hdown : c = "down"
        · subst hdown
          cases hr : (rollbackLastMigration registry env holder now
            leaseDuration s).result with
          | ok v => simp [cliMain, hr, rollbackFailed]
          | nothingToRollback => simp [cliMain, hr, rollbackFailed]
          | orphanMigration v => simp [cliMain, hr, rollbackFailed]
          | irreversible v => simp [cliMain, hr, rollbackFailed]
          | rollbackFailed v => simp [cliMain, hr, rollbackFailed]
          | lockContention => simp [cliMain, hr, rollbackFailed]
        · by_cases hstat : c = "status"
          · subst hstat
            simp [cliMain]
          · simp [cliMain, hup, hdown, hstat]

end MigrateCli
